import Mathlib

/-!
Verification of the `funcy.functions` module (file `src/funcy/functions.py`).

A `Function` in the source wraps a pure evaluation rule from one real number
to one real number, where the float value NaN is the sentinel for "undefined
at this point".  We embed such a rule shallowly as `ℚ → RVal`, where `RVal`
is a rational number or the explicit NaN sentinel; rationals model the exact
arithmetic the algorithms perform (the claims under study do not concern
rounding).  NaN propagates through arithmetic and makes every ordered
comparison false, exactly as Python float NaN does.
-/

namespace Funcy

/-- A Python float value: either NaN or an (exact) number. -/
inductive RVal where
  | nan : RVal
  | num : ℚ → RVal
deriving DecidableEq

open RVal

/-- Python float `+` : NaN propagates. -/
def addR : RVal → RVal → RVal
  | num a, num b => num (a + b)
  | _, _ => nan

/-- Python float binary `-` : NaN propagates. -/
def subR : RVal → RVal → RVal
  | num a, num b => num (a - b)
  | _, _ => nan

/-- Python float `*` : NaN propagates. -/
def mulR : RVal → RVal → RVal
  | num a, num b => num (a * b)
  | _, _ => nan

/-- Python float `/` : NaN propagates.  A zero divisor raises
`ZeroDivisionError` in Python; every division in the embedded code either
divides by a nonzero literal or is guarded by an explicit zero test, so that
branch is unreachable and we map it to NaN for totality. -/
def divR : RVal → RVal → RVal
  | num a, num b => if b = 0 then nan else num (a / b)
  | _, _ => nan

/-- Python float unary `-` : NaN propagates. -/
def negR : RVal → RVal
  | num a => num (-a)
  | nan => nan

/-- Python `abs` on floats: `abs(nan)` is NaN. -/
def absR : RVal → RVal
  | num a => num |a|
  | nan => nan

/-- Python `math.isnan`. -/
def isNanB : RVal → Bool
  | nan => true
  | num _ => false

/-- Python `v == 0` on floats: false when `v` is NaN. -/
def eqZeroB : RVal → Bool
  | nan => false
  | num a => a = 0

/-- Python `u <= v` on floats: false when either side is NaN. -/
def leRb : RVal → RVal → Bool
  | num a, num b => a ≤ b
  | _, _ => false

/-- Python `u < v` on floats: false when either side is NaN. -/
def ltRb : RVal → RVal → Bool
  | num a, num b => a < b
  | _, _ => false

/-- Python `u >= v` on floats: false when either side is NaN. -/
def geRb : RVal → RVal → Bool
  | num a, num b => b ≤ a
  | _, _ => false

/-- Python `u > v` on floats: false when either side is NaN. -/
def gtRb : RVal → RVal → Bool
  | num a, num b => b < a
  | _, _ => false

@[simp] theorem addR_num (a b : ℚ) : addR (num a) (num b) = num (a + b) := rfl
@[simp] theorem subR_num (a b : ℚ) : subR (num a) (num b) = num (a - b) := rfl
@[simp] theorem mulR_num (a b : ℚ) : mulR (num a) (num b) = num (a * b) := rfl
@[simp] theorem divR_num (a b : ℚ) :
    divR (num a) (num b) = if b = 0 then nan else num (a / b) := rfl
@[simp] theorem absR_num (a : ℚ) : absR (num a) = num |a| := rfl
@[simp] theorem isNanB_num (a : ℚ) : isNanB (num a) = false := rfl
@[simp] theorem isNanB_nan : isNanB nan = true := rfl
@[simp] theorem leRb_num (a b : ℚ) : leRb (num a) (num b) = decide (a ≤ b) := rfl
@[simp] theorem gtRb_num (a b : ℚ) : gtRb (num a) (num b) = decide (b < a) := rfl
@[simp] theorem subR_nan_right (v : RVal) : subR v nan = nan := by cases v <;> rfl
@[simp] theorem divR_nan_left (v : RVal) : divR nan v = nan := rfl
@[simp] theorem mulR_nan_left (v : RVal) : mulR nan v = nan := rfl

/-! ## Differentiation (`Function.derivative`, source lines 243-272)

`derivative(dx)` returns a new `Function` whose rule is the closure `deriv`
below, translated line by line from the source. -/

/-- The rule of the `Function` returned by `derivative`: the closure `deriv`
of the source.  `f` is the wrapped rule of `self`, `dx` the step. -/
def deriv (f : ℚ → RVal) (dx : ℚ) (t : ℚ) : RVal :=
  if isNanB (f t) then
    -- Cannot calculate derivative in this point
    nan
  else
    let f_posh := f (t + dx)
    let f_negh := f (t - dx)
    if isNanB f_posh then
      -- f_posh = self.eval(num); h = h/2
      divR (subR (f t) f_negh) (num (2 * (dx / 2)))
    else if isNanB f_negh then
      divR (subR f_posh (f t)) (num (2 * (dx / 2)))
    else
      divR (subR f_posh f_negh) (num (2 * dx))

/-! ## Division combinators (`__truediv__` / `__rtruediv__`, source lines 173-212)

Each combinator returns the evaluation rule of the new `Function`. -/

/-- Rule of `self / other` for `other` a `Function` (`__truediv__`, Function
branch): the closure `divided`, with its explicit zero guard. -/
def truedivFF (f g : ℚ → RVal) : ℚ → RVal := fun t =>
  if eqZeroB (g t) then nan else divR (f t) (g t)

/-- Rule of `self / n` for `n` a number (`__truediv__`, Number branch): the
zero test on `n` happens once, when the `Function` is built. -/
def truedivFN (f : ℚ → RVal) (n : ℚ) : ℚ → RVal :=
  if n = 0 then fun _ => nan else fun t => divR (f t) (num n)

/-- Rule of `n / self` (`__rtruediv__`): the closure `inverse` composed with
`__mul__` on the number `n`, i.e. `x -> inverse(x) * n`. -/
def rtruedivNF (f : ℚ → RVal) (n : ℚ) : ℚ → RVal := fun t =>
  mulR (if eqZeroB (f t) then nan else divR (num 1) (f t)) (num n)

/-! ## Integration (`Function.integrate`, source lines 274-327)

The source's `while` loop over an explicit work-list is modelled by a step
function `integStep` iterated by a fuel-indexed loop `integLoop`; `none`
means the fuel ran out before the Python loop would have returned.  The
work-list is kept top-of-stack-first: Python's `list.pop()` takes the last
element and `extend([(start, midpoint), (midpoint, end)])` appends, so the
element `(midpoint, end)` is popped next; here it is the head. -/

/-- `Function._simpsons_rule`: the fixed 4-point Simpson's 3/8 estimate,
translated term by term (the leading scalar `(end - start)/8` is an exact
number, the four evaluations of `f` may be NaN). -/
def simpsons_rule (f : ℚ → RVal) (s e : ℚ) : RVal :=
  mulR (num ((e - s) / 8))
    (addR
      (addR
        (addR (f s) (mulR (num 3) (f ((2 * s + e) / 3))))
        (mulR (num 3) (f ((s + 2 * e) / 3))))
      (f e))

/-- Result of one iteration of the `while` loop in `integrate`: either the
loop keeps going with a new work-list and accumulator, or returns a value. -/
inductive StepRes where
  | cont : List (ℚ × ℚ) → RVal → StepRes
  | done : RVal → StepRes
deriving DecidableEq

/-- One iteration of the `while intervals_to_integrate:` loop of
`integrate` (source lines 292-312), including the `acc_int > MAX` guard,
the per-popped-interval NaN nudges of the endpoints, the three Simpson
estimates, and the accept/split decision. -/
def integStep (f : ℚ → RVal) (tol MAX : ℚ) :
    List (ℚ × ℚ) → RVal → StepRes
  | [], acc => .done acc
  | (s0, e0) :: rest, acc =>
    if gtRb acc (num MAX) then .done nan
    else
      -- If either endpoint is a singularity it is a generalized integral
      let s := if isNanB (f s0) then s0 + tol ^ 3 else s0
      let e := if isNanB (f e0) then e0 - tol ^ 3 else e0
      let midpoint := (s + e) / 2
      let left := simpsons_rule f s midpoint
      let right := simpsons_rule f midpoint e
      let whole := simpsons_rule f s e
      if leRb (absR (subR (addR left right) whole)) (num (15 * tol)) then
        .cont rest
          (addR acc
            (addR (addR left right)
              (divR (subR (addR left right) whole) (num 15))))
      else
        -- If the tolerance is not met we divide the interval again
        .cont ((midpoint, e) :: (s, midpoint) :: rest) acc

/-- The `while` loop of `integrate`, iterating `integStep` with fuel. -/
def integLoop (f : ℚ → RVal) (tol MAX : ℚ) :
    ℕ → List (ℚ × ℚ) → RVal → Option RVal
  | 0, _, _ => none
  | n + 1, W, acc =>
    match integStep f tol MAX W acc with
    | .done v => some v
    | .cont W' acc' => integLoop f tol MAX n W' acc'

/-- `Function.integrate(start, end, tol, MAX)` for a `Function` with rule
`f`, with explicit fuel. -/
def integrate (f : ℚ → RVal) (s e tol MAX : ℚ) (fuel : ℕ) : Option RVal :=
  integLoop f tol MAX fuel [(s, e)] (num 0)

/-- Absolute value on ℚ as a conditional, for computing with concrete
rationals. -/
theorem ratAbs_ite (a : ℚ) : |a| = if 0 ≤ a then a else -a := by
  split
  · exact abs_of_nonneg ‹_›
  · exact abs_of_neg (lt_of_not_ge ‹_›)

/-- Unfolding lemma for one loop iteration. -/
theorem integLoop_succ (f : ℚ → RVal) (tol MAX : ℚ) (n : ℕ) (W : List (ℚ × ℚ))
    (acc : RVal) :
    integLoop f tol MAX (n + 1) W acc =
      match integStep f tol MAX W acc with
      | .done v => some v
      | .cont W' acc' => integLoop f tol MAX n W' acc' := rfl

/-- A loop iteration whose step continues. -/
theorem integLoop_cont {f : ℚ → RVal} {tol MAX : ℚ} {W W' : List (ℚ × ℚ)}
    {acc acc' : RVal} (n : ℕ) (h : integStep f tol MAX W acc = .cont W' acc') :
    integLoop f tol MAX (n + 1) W acc = integLoop f tol MAX n W' acc' := by
  rw [integLoop_succ, h]

/-- A loop iteration whose step returns. -/
theorem integLoop_done {f : ℚ → RVal} {tol MAX : ℚ} {W : List (ℚ × ℚ)}
    {acc v : RVal} (n : ℕ) (h : integStep f tol MAX W acc = .done v) :
    integLoop f tol MAX (n + 1) W acc = some v := by
  rw [integLoop_succ, h]

/-! ## Claim C1: the divergence guard

The source guard (line 293) is `if acc_int > MAX: return float("nan")` — a
signed comparison, not a comparison of the absolute value.  A run whose
accumulated total drops below `-MAX` is not aborted.  `fTabC1` below is a
concrete rule (it is `0` except at the two points `1/6` and `7/12`) chosen
so that `integrate(0, 1, tol=1/15, MAX=1)` first splits `(0,1)`, then
accepts `-21/20` on `(1/2,1)` — so the running total `-21/20` exceeds the
bound `1` in absolute value while the interval `(0,1/2)` is still pending —
and then finishes normally with the value `-7/20` instead of NaN. -/

/-- Concrete evaluation rule used to refute claim C1. -/
def fTabC1 : ℚ → RVal := fun t =>
  if t = 1 / 6 then num 8 else if t = 7 / 12 then num (-21 / 2) else num 0

/-- First loop iteration of the C1 run: the interval `(0,1)` is split. -/
theorem fTabC1_step1 :
    integStep fTabC1 (1 / 15) 1 [(0, 1)] (num 0) =
      .cont [(1 / 2, 1), (0, 1 / 2)] (num 0) := by
  norm_num [integStep, simpsons_rule, fTabC1, addR, mulR, subR, divR, absR,
    leRb, gtRb, isNanB, ratAbs_ite]

/-- Second loop iteration of the C1 run: `(1/2,1)` is accepted with value
`-21/20`, driving the running total past the bound in absolute value. -/
theorem fTabC1_step2 :
    integStep fTabC1 (1 / 15) 1 [(1 / 2, 1), (0, 1 / 2)] (num 0) =
      .cont [(0, 1 / 2)] (num (-21 / 20)) := by
  norm_num [integStep, simpsons_rule, fTabC1, addR, mulR, subR, divR, absR,
    leRb, gtRb, isNanB, ratAbs_ite]

/-- Third loop iteration of the C1 run: the guard does not fire on the
total `-21/20`; `(0,1/2)` is accepted and the loop finishes. -/
theorem fTabC1_step3 :
    integStep fTabC1 (1 / 15) 1 [(0, 1 / 2)] (num (-21 / 20)) =
      .cont [] (num (-7 / 20)) := by
  norm_num [integStep, simpsons_rule, fTabC1, addR, mulR, subR, divR, absR,
    leRb, gtRb, isNanB, ratAbs_ite]

/-- Fourth loop iteration of the C1 run: the empty work-list returns the
accumulated total. -/
theorem fTabC1_step4 :
    integStep fTabC1 (1 / 15) 1 [] (num (-7 / 20)) = .done (num (-7 / 20)) := rfl

/-- Claim C1 is false as stated: on the rule `fTabC1` over `[0,1]` with
`tolerance = 1/15` and `bound = 1`, the running accumulated total reaches
`-21/20` (which exceeds the bound in absolute value) while the work-list is
still nonempty, yet `integrate` does not abort: it returns `-7/20`, not
NaN.  The guard does not fire for a negatively diverging total. -/
theorem integrate_divergence_guard_cex :
    integStep fTabC1 (1 / 15) 1 [(0, 1)] (num 0) =
        .cont [(1 / 2, 1), (0, 1 / 2)] (num 0) ∧
    integStep fTabC1 (1 / 15) 1 [(1 / 2, 1), (0, 1 / 2)] (num 0) =
        .cont [(0, 1 / 2)] (num (-21 / 20)) ∧
    1 < |(-21 / 20 : ℚ)| ∧
    integrate fTabC1 0 1 (1 / 15) 1 10 = some (num (-7 / 20)) ∧
    some (num (-7 / 20 : ℚ)) ≠ (some nan : Option RVal) := by
  refine ⟨fTabC1_step1, fTabC1_step2, by norm_num [ratAbs_ite], ?_, by simp⟩
  have h0 : integrate fTabC1 0 1 (1 / 15) 1 10 =
      integLoop fTabC1 (1 / 15) 1 10 [(0, 1)] (num 0) := rfl
  rw [h0, show (10 : ℕ) = 9 + 1 from rfl, integLoop_cont 9 fTabC1_step1,
    show (9 : ℕ) = 8 + 1 from rfl, integLoop_cont 8 fTabC1_step2,
    show (8 : ℕ) = 7 + 1 from rfl, integLoop_cont 7 fTabC1_step3,
    show (7 : ℕ) = 6 + 1 from rfl, integLoop_done 6 fTabC1_step4]

/-- A two-way conditional between continuing states always continues. -/
theorem ite_cont_exists (c : Prop) [Decidable c] (W1 W2 : List (ℚ × ℚ))
    (a1 a2 : RVal) :
    ∃ W' a', (if c then StepRes.cont W1 a1 else StepRes.cont W2 a2) = .cont W' a' := by
  by_cases h : c
  · exact ⟨W1, a1, by simp [h]⟩
  · exact ⟨W2, a2, by simp [h]⟩

/-- Claim C1 amended: the guard fires — aborting with NaN — exactly when the
running accumulated total (a number) strictly exceeds `bound`; when the
total is at most `bound` the iteration always continues, no matter how
negative the total is.  (The absolute-value reading of the claim is false;
see `integrate_divergence_guard_cex`.) -/
theorem integrate_divergence_guard_signed (f : ℚ → RVal) (tol MAX q s e : ℚ)
    (rest : List (ℚ × ℚ)) :
    (MAX < q → integStep f tol MAX ((s, e) :: rest) (num q) = .done nan) ∧
    (q ≤ MAX →
      ∃ W' acc', integStep f tol MAX ((s, e) :: rest) (num q) = .cont W' acc') := by
  constructor
  · intro h
    simp [integStep, gtRb, h]
  · intro h
    simp only [integStep, gtRb_num]
    rw [decide_eq_false (not_lt.mpr h)]
    simp only [Bool.false_eq_true, if_false]
    exact ite_cont_exists _ _ _ _ _

/-- Witness for `integrate_divergence_guard_signed` at concrete inputs. -/
theorem integrate_divergence_guard_signed_witness :
    ((1 : ℚ) < 2 ∧
      integStep (fun _ => num 0) 1 1 [(0, 1)] (num 2) = .done nan) ∧
    ((0 : ℚ) ≤ 1 ∧
      ∃ W' acc', integStep (fun _ => num 0) 1 1 [(0, 1)] (num 0) = .cont W' acc') := by
  refine ⟨⟨by norm_num, ?_⟩, ⟨by norm_num, ?_⟩⟩
  · exact (integrate_divergence_guard_signed (fun _ => num 0) 1 1 2 0 1 []).1
      (by norm_num)
  · exact (integrate_divergence_guard_signed (fun _ => num 0) 1 1 0 0 1 []).2
      (by norm_num)

/-! ## Claim C2: the Simpson estimates and the accept/split decision -/

/-- The 4-point Simpson's-3/8 estimate exactly as the spec writes it:
`S(a,b) = (b-a)/8 * (f(a) + 3f((2a+b)/3) + 3f((a+2b)/3) + f(b))`. -/
def specSimpson (f : ℚ → RVal) (a b : ℚ) : RVal :=
  mulR (num ((b - a) / 8))
    (addR
      (addR
        (addR (f a) (mulR (num 3) (f ((2 * a + b) / 3))))
        (mulR (num 3) (f ((a + 2 * b) / 3))))
      (f b))

/-- The spec's formula coincides with the source's `_simpsons_rule`. -/
theorem specSimpson_eq (f : ℚ → RVal) (a b : ℚ) :
    specSimpson f a b = simpsons_rule f a b := rfl

/-- Claim C2: for a popped pending interval `(a,b)` (with non-NaN endpoints,
so the generalized-integral nudge of C5 is inert, and with the running total
under the C1 guard), the loop computes the three spec-formula Simpson
estimates over `(a,m)`, `(m,b)` and `(a,b)` with `m = (a+b)/2`; if
`|S(a,m)+S(m,b) - S(a,b)| <= 15*tol` it adds the refined value
`S(a,m)+S(m,b) + (S(a,m)+S(m,b)-S(a,b))/15` to the running total, and
otherwise it pushes `(a,m)` and `(m,b)` back onto the work-list, adding
nothing. -/
theorem integStep_simpson_accept_or_split (f : ℚ → RVal) (tol MAX a b q : ℚ)
    (rest : List (ℚ × ℚ)) (hq : q ≤ MAX) (ha : isNanB (f a) = false)
    (hb : isNanB (f b) = false) :
    integStep f tol MAX ((a, b) :: rest) (num q) =
      if leRb
          (absR
            (subR
              (addR (specSimpson f a ((a + b) / 2)) (specSimpson f ((a + b) / 2) b))
              (specSimpson f a b)))
          (num (15 * tol)) then
        .cont rest
          (addR (num q)
            (addR
              (addR (specSimpson f a ((a + b) / 2)) (specSimpson f ((a + b) / 2) b))
              (divR
                (subR
                  (addR (specSimpson f a ((a + b) / 2))
                    (specSimpson f ((a + b) / 2) b))
                  (specSimpson f a b))
                (num 15))))
      else
        .cont (((a + b) / 2, b) :: (a, (a + b) / 2) :: rest) (num q) := by
  simp only [integStep, gtRb_num, ha, hb, Bool.false_eq_true, if_false]
  rw [decide_eq_false (not_lt.mpr hq)]
  simp only [Bool.false_eq_true, if_false]
  rfl

/-- Witness for `integStep_simpson_accept_or_split`: the identity rule over
`(0,1)` is estimated exactly, so the interval is accepted with value `1/2`. -/
theorem integStep_simpson_accept_or_split_witness :
    ((0 : ℚ) ≤ 100 ∧ isNanB ((fun t => num t) (0 : ℚ)) = false ∧
      isNanB ((fun t => num t) (1 : ℚ)) = false) ∧
    integStep (fun t => num t) 1 100 [(0, 1)] (num 0) = .cont [] (num (1 / 2)) := by
  refine ⟨⟨by norm_num, rfl, rfl⟩, ?_⟩
  exact (integStep_simpson_accept_or_split (fun t => num t) 1 100 0 1 0 []
      (by norm_num) rfl rfl).trans
    (by norm_num [specSimpson, addR, mulR, subR, divR, absR, leRb, ratAbs_ite])

/-! ## Claims C3 and C10: the derivative rule, case by case -/

/-- Claim C3: for positive step `h`, the derivative rule returns (1) NaN at
a point where `f` is NaN; (2) the one-sided halved-step estimate
`(f(t)-f(t-h))/h` (resp. `(f(t+h)-f(t))/h`) when exactly one of `f(t+h)`,
`f(t-h)` is NaN — the source halves `h` and divides by `2*(h/2) = h`; and
(3) the centered two-point value `(f(t+h)-f(t-h))/(2h)` when both side
evaluations are non-NaN. -/
theorem deriv_cases (f : ℚ → RVal) (h t : ℚ) (hpos : 0 < h) :
    (isNanB (f t) = true → deriv f h t = nan) ∧
    (isNanB (f t) = false → isNanB (f (t + h)) = true →
      isNanB (f (t - h)) = false →
      deriv f h t = divR (subR (f t) (f (t - h))) (num h)) ∧
    (isNanB (f t) = false → isNanB (f (t + h)) = false →
      isNanB (f (t - h)) = true →
      deriv f h t = divR (subR (f (t + h)) (f t)) (num h)) ∧
    (isNanB (f t) = false → isNanB (f (t + h)) = false →
      isNanB (f (t - h)) = false →
      deriv f h t = divR (subR (f (t + h)) (f (t - h))) (num (2 * h))) := by
  have hhalf : 2 * (h / 2) = h := by ring
  refine ⟨?_, ?_, ?_, ?_⟩
  · intro h1
    simp [deriv, h1]
  · intro h1 h2 h3
    simp [deriv, h1, h2, h3, hhalf]
  · intro h1 h2 h3
    simp [deriv, h1, h2, h3, hhalf]
  · intro h1 h2 h3
    simp [deriv, h1, h2, h3]

/-- A rule that is NaN exactly on the negative reals, witnessing the
one-sided case of `deriv_cases`. -/
def fSideNan : ℚ → RVal := fun t => if t < 0 then nan else num t

/-- Witness for `deriv_cases`: at `t = 0` with `h = 1`, `fSideNan` is NaN on
the negative side only, and the derivative rule falls back to the one-sided
estimate `(f(0+1) - f(0))/1 = 1`. -/
theorem deriv_cases_witness :
    ((0 : ℚ) < 1 ∧ isNanB (fSideNan 0) = false ∧
      isNanB (fSideNan (0 + 1)) = false ∧ isNanB (fSideNan (0 - 1)) = true) ∧
    deriv fSideNan 1 0 = num 1 := by
  refine ⟨⟨by norm_num, by norm_num [fSideNan], by norm_num [fSideNan],
    by norm_num [fSideNan]⟩, ?_⟩
  exact ((deriv_cases fSideNan 1 0 (by norm_num)).2.2.1
      (by norm_num [fSideNan]) (by norm_num [fSideNan])
      (by norm_num [fSideNan])).trans
    (by norm_num [fSideNan, subR, divR])

/-- Claim C10: when `f(t)` is defined but both `f(t+h)` and `f(t-h)` are
NaN, only the positive side is substituted by `f(t)` (the source uses
`elif`), so the NaN of the negative side propagates through the difference
quotient and the derivative rule returns NaN. -/
theorem deriv_both_sides_nan (f : ℚ → RVal) (h t : ℚ) (hpos : 0 < h)
    (h1 : isNanB (f t) = false) (h2 : isNanB (f (t + h)) = true)
    (h3 : isNanB (f (t - h)) = true) :
    deriv f h t = nan := by
  have hnan : f (t - h) = nan := by
    cases hft : f (t - h) <;> simp_all [isNanB]
  simp [deriv, h1, h2, hnan]

/-- A rule defined only at `0`, witnessing `deriv_both_sides_nan`. -/
def fOnlyZero : ℚ → RVal := fun t => if t = 0 then num 5 else nan

/-- Witness for `deriv_both_sides_nan` at `t = 0`, `h = 1`. -/
theorem deriv_both_sides_nan_witness :
    ((0 : ℚ) < 1 ∧ isNanB (fOnlyZero 0) = false ∧
      isNanB (fOnlyZero (0 + 1)) = true ∧ isNanB (fOnlyZero (0 - 1)) = true) ∧
    deriv fOnlyZero 1 0 = nan := by
  refine ⟨⟨by norm_num, by norm_num [fOnlyZero], by norm_num [fOnlyZero],
    by norm_num [fOnlyZero]⟩, ?_⟩
  exact deriv_both_sides_nan fOnlyZero 1 0 (by norm_num)
    (by norm_num [fOnlyZero]) (by norm_num [fOnlyZero]) (by norm_num [fOnlyZero])

/-! ## Claim C4: division yields NaN exactly at zeros of the divisor -/

@[simp] theorem divR_nan_right (v : RVal) : divR v nan = nan := by cases v <;> rfl

/-- Claim C4: the three division combinators never raise (they are total
functions into `RVal`) and yield NaN exactly at zeros of the divisor:
`(f/g)(t)` is NaN when `g(t) == 0` and is `f(t)/g(t)` otherwise; `(f/n)` is
constantly NaN when `n == 0` and is `f(t)/n` otherwise; `(n/f)(t)` is NaN
when `f(t) == 0` and is `n/f(t)` otherwise (the source computes
`(1/f(t)) * n`, which equals `n/f(t)` exactly). -/
theorem div_nan_at_zeros (f g : ℚ → RVal) (n t : ℚ) :
    (eqZeroB (g t) = true → truedivFF f g t = nan) ∧
    (eqZeroB (g t) = false → truedivFF f g t = divR (f t) (g t)) ∧
    (n = 0 → truedivFN f n t = nan) ∧
    (n ≠ 0 → truedivFN f n t = divR (f t) (num n)) ∧
    (eqZeroB (f t) = true → rtruedivNF f n t = nan) ∧
    (eqZeroB (f t) = false → rtruedivNF f n t = divR (num n) (f t)) := by
  refine ⟨?_, ?_, ?_, ?_, ?_, ?_⟩
  · intro h1
    simp [truedivFF, h1]
  · intro h1
    simp [truedivFF, h1]
  · intro h1
    simp [truedivFN, h1]
  · intro h1
    simp [truedivFN, h1]
  · intro h1
    simp [rtruedivNF, h1]
  · intro h1
    cases hft : f t with
    | nan => simp [rtruedivNF, hft]
    | num v =>
      have hv : v ≠ 0 := by
        rw [hft] at h1
        simpa [eqZeroB] using h1
      simp only [rtruedivNF, hft, eqZeroB, decide_eq_true_eq, hv,
        Bool.false_eq_true, if_false, divR, mulR]
      congr 1
      ring

/-- Witness for `div_nan_at_zeros` on the identity rule: `(x/x)(0)` is NaN
and `(x/x)(2) = 1`; `(x/0)(3)` is NaN and `(x/2)(3) = 3/2`; `(5/x)(0)` is
NaN and `(5/x)(2) = 5/2`. -/
theorem div_nan_at_zeros_witness :
    truedivFF (fun u => num u) (fun u => num u) 0 = nan ∧
    truedivFF (fun u => num u) (fun u => num u) 2 = num 1 ∧
    truedivFN (fun u => num u) 0 3 = nan ∧
    truedivFN (fun u => num u) 2 3 = num (3 / 2) ∧
    rtruedivNF (fun u => num u) 5 0 = nan ∧
    rtruedivNF (fun u => num u) 5 2 = num (5 / 2) := by
  refine ⟨?_, ?_, ?_, ?_, ?_, ?_⟩
  · exact (div_nan_at_zeros (fun u => num u) (fun u => num u) 1 0).1
      (by norm_num [eqZeroB])
  · exact ((div_nan_at_zeros (fun u => num u) (fun u => num u) 1 2).2.1
      (by norm_num [eqZeroB])).trans (by norm_num [divR])
  · exact (div_nan_at_zeros (fun u => num u) (fun u => num u) 0 3).2.2.1 rfl
  · exact ((div_nan_at_zeros (fun u => num u) (fun u => num u) 2 3).2.2.2.1
      (by norm_num)).trans (by norm_num [divR])
  · exact (div_nan_at_zeros (fun u => num u) (fun u => num u) 5 0).2.2.2.2.1
      (by norm_num [eqZeroB])
  · exact ((div_nan_at_zeros (fun u => num u) (fun u => num u) 5 2).2.2.2.2.2
      (by norm_num [eqZeroB])).trans (by norm_num [divR])

/-! ## Claim C5: the generalized-integral nudge of NaN endpoints -/

/-- Claim C5: if `f` is NaN at `start` (resp. `end`), `integrate` replaces
that endpoint by `start + tol^3` (resp. `end - tol^3`) before any Simpson
estimate is computed, so the whole run equals the run started from the
nudged endpoints (provided the nudged endpoints are not NaN themselves, in
which case the loop would nudge again). -/
theorem integrate_endpoint_nudge (f : ℚ → RVal) (s e s' e' tol MAX : ℚ)
    (fuel : ℕ) (hs : s' = if isNanB (f s) then s + tol ^ 3 else s)
    (he : e' = if isNanB (f e) then e - tol ^ 3 else e)
    (hs' : isNanB (f s') = false) (he' : isNanB (f e') = false) :
    integrate f s e tol MAX fuel = integrate f s' e' tol MAX fuel := by
  subst hs
  subst he
  cases fuel with
  | zero => rfl
  | succ n =>
    have hstep : integStep f tol MAX [(s, e)] (num 0) =
        integStep f tol MAX
          [((if isNanB (f s) then s + tol ^ 3 else s),
            (if isNanB (f e) then e - tol ^ 3 else e))] (num 0) := by
      simp only [integStep, hs', he', Bool.false_eq_true, if_false]
    show integLoop f tol MAX (n + 1) [(s, e)] (num 0) =
      integLoop f tol MAX (n + 1)
        [((if isNanB (f s) then s + tol ^ 3 else s),
          (if isNanB (f e) then e - tol ^ 3 else e))] (num 0)
    rw [integLoop_succ, integLoop_succ, hstep]

/-- A rule that is NaN exactly at `0`, witnessing `integrate_endpoint_nudge`. -/
def fNanAtZero : ℚ → RVal := fun t => if t = 0 then nan else num 1

/-- Witness for `integrate_endpoint_nudge`: for `fNanAtZero` over `[0,1]`
with `tol = 1/10`, the left endpoint is nudged to `1/1000`. -/
theorem integrate_endpoint_nudge_witness :
    (((1 : ℚ) / 1000) = (if isNanB (fNanAtZero 0) then 0 + (1 / 10 : ℚ) ^ 3 else 0) ∧
      ((1 : ℚ) = if isNanB (fNanAtZero 1) then 1 - (1 / 10 : ℚ) ^ 3 else 1) ∧
      isNanB (fNanAtZero (1 / 1000)) = false ∧ isNanB (fNanAtZero 1) = false) ∧
    integrate fNanAtZero 0 1 (1 / 10) 100 3 =
      integrate fNanAtZero (1 / 1000) 1 (1 / 10) 100 3 := by
  refine ⟨⟨by norm_num [fNanAtZero, isNanB], by norm_num [fNanAtZero, isNanB],
    by norm_num [fNanAtZero, isNanB], by norm_num [fNanAtZero, isNanB]⟩, ?_⟩
  exact integrate_endpoint_nudge fNanAtZero 0 1 (1 / 1000) 1 (1 / 10) 100 3
    (by norm_num [fNanAtZero, isNanB]) (by norm_num [fNanAtZero, isNanB])
    (by norm_num [fNanAtZero, isNanB]) (by norm_num [fNanAtZero, isNanB])

/-! ## Claim C6: reversal of the integration bounds

For a rule that is a number everywhere, the adaptive loop computes the sum
of the values of the leaves of a subdivision tree; `treeQ` below is that
tree, `simpQ` the Simpson estimate on plain rationals.  Reversing the
bounds mirrors the tree and negates every leaf, but the runs traverse the
leaves in a different order and the divergence guard is a signed comparison
of the running total, so reversal only negates the result when neither run
aborts — claim C6 as stated is refuted by `integrate_reverse_cex` below. -/

/-- Simpson's 3/8 estimate on plain rationals. -/
def simpQ (f : ℚ → ℚ) (s e : ℚ) : ℚ :=
  (e - s) / 8 * (f s + 3 * f ((2 * s + e) / 3) + 3 * f ((s + 2 * e) / 3) + f e)

/-- On a rule that is a number everywhere, the source's Simpson estimate is
the plain rational one. -/
theorem simpsons_rule_num (f : ℚ → ℚ) (s e : ℚ) :
    simpsons_rule (fun u => num (f u)) s e = num (simpQ f s e) := rfl

/-- The subdivision tree of the adaptive algorithm for an everywhere-number
rule: accept the refined value when the Richardson estimate meets the
tolerance, otherwise recurse on the two halves (fuel-indexed). -/
def treeQ (f : ℚ → ℚ) (tol : ℚ) : ℕ → ℚ → ℚ → Option ℚ
  | 0, _, _ => none
  | n + 1, s, e =>
    if |simpQ f s ((s + e) / 2) + simpQ f ((s + e) / 2) e - simpQ f s e| ≤ 15 * tol then
      some (simpQ f s ((s + e) / 2) + simpQ f ((s + e) / 2) e +
        (simpQ f s ((s + e) / 2) + simpQ f ((s + e) / 2) e - simpQ f s e) / 15)
    else
      match treeQ f tol n ((s + e) / 2) e, treeQ f tol n s ((s + e) / 2) with
      | some u, some v => some (u + v)
      | _, _ => none

/-- Unfolding lemma for `treeQ` at positive fuel. -/
theorem treeQ_succ (f : ℚ → ℚ) (tol : ℚ) (n : ℕ) (s e : ℚ) :
    treeQ f tol (n + 1) s e =
      if |simpQ f s ((s + e) / 2) + simpQ f ((s + e) / 2) e - simpQ f s e| ≤ 15 * tol then
        some (simpQ f s ((s + e) / 2) + simpQ f ((s + e) / 2) e +
          (simpQ f s ((s + e) / 2) + simpQ f ((s + e) / 2) e - simpQ f s e) / 15)
      else
        match treeQ f tol n ((s + e) / 2) e, treeQ f tol n s ((s + e) / 2) with
        | some u, some v => some (u + v)
        | _, _ => none := rfl

/-- `treeQ` is monotone in the fuel. -/
theorem treeQ_mono (f : ℚ → ℚ) (tol : ℚ) :
    ∀ {n n' : ℕ} {s e v : ℚ}, n ≤ n' → treeQ f tol n s e = some v →
      treeQ f tol n' s e = some v := by
  intro n
  induction n with
  | zero => intro n' s e v _ h; simp [treeQ] at h
  | succ n ih =>
    intro n' s e v hle h
    obtain ⟨n'', rfl⟩ : ∃ n'', n' = n'' + 1 :=
      ⟨n' - 1, (Nat.succ_pred_eq_of_pos (Nat.lt_of_lt_of_le (Nat.succ_pos n) hle)).symm⟩
    have hle' : n ≤ n'' := Nat.succ_le_succ_iff.mp hle
    rw [treeQ_succ] at h ⊢
    by_cases hc :
        |simpQ f s ((s + e) / 2) + simpQ f ((s + e) / 2) e - simpQ f s e| ≤ 15 * tol
    · rw [if_pos hc] at h ⊢
      exact h
    · rw [if_neg hc] at h ⊢
      rcases hu : treeQ f tol n ((s + e) / 2) e with _ | u
      · rw [hu] at h; exact absurd h (by simp)
      rcases hv : treeQ f tol n s ((s + e) / 2) with _ | v'
      · rw [hu, hv] at h; exact absurd h (by simp)
      rw [hu, hv] at h
      rw [ih hle' hu, ih hle' hv]
      exact h

/-- The Simpson estimate is antisymmetric in its endpoints. -/
theorem simpQ_rev (f : ℚ → ℚ) (s e : ℚ) : simpQ f e s = -simpQ f s e := by
  unfold simpQ
  rw [show (2 * e + s) / 3 = (s + 2 * e) / 3 by ring,
    show (e + 2 * s) / 3 = (2 * s + e) / 3 by ring]
  ring

/-- Mirroring the interval negates every leaf of the subdivision tree. -/
theorem treeQ_neg (f : ℚ → ℚ) (tol : ℚ) :
    ∀ (n : ℕ) (s e : ℚ),
      treeQ f tol n e s = (treeQ f tol n s e).map (fun z => -z) := by
  intro n
  induction n with
  | zero => intro s e; rfl
  | succ n ih =>
    intro s e
    rw [treeQ_succ, treeQ_succ]
    have hm : (e + s) / 2 = (s + e) / 2 := by ring
    rw [hm, simpQ_rev f ((s + e) / 2) e, simpQ_rev f s ((s + e) / 2),
      simpQ_rev f s e]
    rw [show -simpQ f ((s + e) / 2) e + -simpQ f s ((s + e) / 2) - -simpQ f s e =
      -(simpQ f s ((s + e) / 2) + simpQ f ((s + e) / 2) e - simpQ f s e) by ring]
    rw [abs_neg]
    split
    · simp only [Option.map_some']
      congr 1
      ring
    · rw [ih ((s + e) / 2) e, ih s ((s + e) / 2)]
      rcases treeQ f tol n ((s + e) / 2) e with _ | u
      · rcases treeQ f tol n s ((s + e) / 2) with _ | v
        · rfl
        · rfl
      · rcases treeQ f tol n s ((s + e) / 2) with _ | v
        · rfl
        · simp only [Option.map_some']
          congr 1
          ring

/-- Every terminating run of the loop on an everywhere-number rule that
returns a number computes: starting accumulator plus the sum of subdivision
tree values of the pending intervals.  (A run that aborts through the guard
returns NaN, not a number, so it is excluded by the hypothesis.) -/
theorem integLoop_leaves (f : ℚ → ℚ) (tol MAX : ℚ) :
    ∀ (n : ℕ) (W : List (ℚ × ℚ)) (a r : ℚ),
      integLoop (fun u => num (f u)) tol MAX n W (num a) = some (num r) →
      ∃ vs : List ℚ,
        List.Forall₂ (fun p v => ∃ m, treeQ f tol m p.1 p.2 = some v) W vs ∧
        r = a + vs.sum := by
  intro n
  induction n with
  | zero => intro W a r h; simp [integLoop] at h
  | succ n ih =>
    intro W a r h
    rcases W with _ | ⟨⟨s0, e0⟩, rest⟩
    · rw [integLoop_succ] at h
      simp only [integStep, Option.some.injEq, RVal.num.injEq] at h
      exact ⟨[], List.Forall₂.nil, by simp [← h]⟩
    · rw [integLoop_succ] at h
      by_cases hga : MAX < a
      · simp [integStep, gtRb_num, hga] at h
      · have hg' : decide (MAX < a) = false := decide_eq_false hga
        simp only [integStep, gtRb_num, hg', Bool.false_eq_true, if_false,
          isNanB_num, simpsons_rule_num, addR_num, subR_num, absR_num,
          leRb_num, divR_num] at h
        by_cases hacc :
            |simpQ f s0 ((s0 + e0) / 2) + simpQ f ((s0 + e0) / 2) e0 -
              simpQ f s0 e0| ≤ 15 * tol
        · rw [decide_eq_true hacc] at h
          simp only [if_true, if_neg (by norm_num : (15 : ℚ) ≠ 0), addR_num] at h
          obtain ⟨vs, hall, hsum⟩ := ih rest _ r h
          refine ⟨(simpQ f s0 ((s0 + e0) / 2) + simpQ f ((s0 + e0) / 2) e0 +
            (simpQ f s0 ((s0 + e0) / 2) + simpQ f ((s0 + e0) / 2) e0 -
              simpQ f s0 e0) / 15) :: vs,
            List.Forall₂.cons ⟨1, ?_⟩ hall, ?_⟩
          · rw [show (1 : ℕ) = 0 + 1 from rfl, treeQ_succ, if_pos hacc]
          · rw [List.sum_cons, hsum]
            ring
        · rw [decide_eq_false hacc] at h
          simp only [Bool.false_eq_true, if_false] at h
          obtain ⟨vs, hall, hsum⟩ := ih _ _ r h
          cases hall with
          | cons hv1 htail =>
            cases htail with
            | cons hv2 hrest =>
              obtain ⟨m1, h1⟩ := hv1
              obtain ⟨m2, h2⟩ := hv2
              rename_i v1 v2 vsr
              refine ⟨(v1 + v2) :: vsr,
                List.Forall₂.cons ⟨max m1 m2 + 1, ?_⟩ hrest, ?_⟩
              · rw [treeQ_succ, if_neg hacc,
                  treeQ_mono f tol (le_max_left m1 m2) h1,
                  treeQ_mono f tol (le_max_right m1 m2) h2]
              · rw [List.sum_cons, List.sum_cons] at hsum
                rw [List.sum_cons, hsum]
                ring

/-- Claim C6 amended: for a rule that is a number everywhere, reversing the
bounds negates the result of `integrate` provided neither run aborts (both
return a number).  The claim without this proviso is refuted by
`integrate_reverse_cex`: the divergence guard compares the signed running
total, so it can abort one direction and not the other. -/
theorem integrate_reverse_neg (f : ℚ → ℚ) (a b tol MAX : ℚ) (n1 n2 : ℕ)
    (r r' : ℚ)
    (h1 : integrate (fun u => num (f u)) a b tol MAX n1 = some (num r))
    (h2 : integrate (fun u => num (f u)) b a tol MAX n2 = some (num r')) :
    r' = -r := by
  obtain ⟨vs, hall, hsum⟩ := integLoop_leaves f tol MAX n1 [(a, b)] 0 r h1
  obtain ⟨vs', hall', hsum'⟩ := integLoop_leaves f tol MAX n2 [(b, a)] 0 r' h2
  rw [List.forall₂_cons_left_iff] at hall hall'
  obtain ⟨v, vs0, ⟨m1, hm1⟩, htail, rfl⟩ := hall
  obtain ⟨v', vs0', ⟨m2, hm2⟩, htail', rfl⟩ := hall'
  rw [List.forall₂_nil_left_iff] at htail htail'
  subst htail
  subst htail'
  have hm1c : treeQ f tol m1 a b = some v := hm1
  have hm2c : treeQ f tol m2 b a = some v' := hm2
  have hm2' : treeQ f tol m2 a b = some (-v') := by
    rw [treeQ_neg f tol m2 a b] at hm2c
    rcases hq : treeQ f tol m2 a b with _ | u
    · rw [hq] at hm2c; exact absurd hm2c (by simp)
    · rw [hq] at hm2c
      simp only [Option.map_some', Option.some.injEq] at hm2c
      rw [← hm2c]
      simp
  have h4 := treeQ_mono f tol (le_max_left m1 m2) hm1c
  have h5 := treeQ_mono f tol (le_max_right m1 m2) hm2'
  rw [h4] at h5
  simp only [Option.some.injEq] at h5
  simp only [List.sum_cons, List.sum_nil] at hsum hsum'
  rw [hsum', hsum, h5]
  ring

/-- Witness for `integrate_reverse_neg`: the identity rule over `(0,2)` and
`(2,0)` integrates to `2` and `-2` respectively. -/
theorem integrate_reverse_neg_witness :
    integrate (fun u => num u) 0 2 1 1000 2 = some (num 2) ∧
    integrate (fun u => num u) 2 0 1 1000 2 = some (num (-2)) ∧
    (-2 : ℚ) = -(2 : ℚ) := by
  have s1 : integStep (fun u => num u) 1 1000 [(0, 2)] (num 0) =
      .cont [] (num 2) := by
    norm_num [integStep, simpsons_rule, addR, mulR, subR, divR, absR, leRb,
      gtRb, isNanB, ratAbs_ite]
  have s2 : integStep (fun u => num u) 1 1000 [] (num 2) = .done (num 2) := rfl
  have t1 : integStep (fun u => num u) 1 1000 [(2, 0)] (num 0) =
      .cont [] (num (-2)) := by
    norm_num [integStep, simpsons_rule, addR, mulR, subR, divR, absR, leRb,
      gtRb, isNanB, ratAbs_ite]
  have t2 : integStep (fun u => num u) 1 1000 [] (num (-2)) =
      .done (num (-2)) := rfl
  have hA : integrate (fun u => num u) 0 2 1 1000 2 = some (num 2) := by
    show integLoop (fun u => num u) 1 1000 2 [(0, 2)] (num 0) = some (num 2)
    rw [show (2 : ℕ) = 1 + 1 from rfl, integLoop_cont 1 s1, integLoop_done 0 s2]
  have hB : integrate (fun u => num u) 2 0 1 1000 2 = some (num (-2)) := by
    show integLoop (fun u => num u) 1 1000 2 [(2, 0)] (num 0) = some (num (-2))
    rw [show (2 : ℕ) = 1 + 1 from rfl, integLoop_cont 1 t1, integLoop_done 0 t2]
  exact ⟨hA, hB, integrate_reverse_neg (fun x => x) 0 2 1 1000 2 2 2 (-2) hA hB⟩

/-- Concrete evaluation rule used to refute claim C6: the mirror image of
`fTabC1` with the sign of the large accepted value flipped, so that the
forward run `integrate(0,1)` trips the (positive-only) divergence guard and
returns NaN while the reversed run `integrate(1,0)` completes with the
number `-7/4`. -/
def fTabC6 : ℚ → RVal := fun t =>
  if t = 1 / 6 then num 8 else if t = 7 / 12 then num (21 / 2) else num 0

/-- Claim C6 is false as stated: for `fTabC6` with `tolerance = 1/15` and
`bound = 1`, `integrate(0,1)` returns NaN (the guard fires on the positive
running total `21/20`), yet `integrate(1,0)` returns `-7/4`, which is not
the negation of NaN. -/
theorem integrate_reverse_cex :
    integrate fTabC6 0 1 (1 / 15) 1 10 = some nan ∧
    integrate fTabC6 1 0 (1 / 15) 1 10 = some (num (-7 / 4)) ∧
    num (-7 / 4 : ℚ) ≠ negR nan := by
  have s1 : integStep fTabC6 (1 / 15) 1 [(0, 1)] (num 0) =
      .cont [(1 / 2, 1), (0, 1 / 2)] (num 0) := by
    norm_num [integStep, simpsons_rule, fTabC6, addR, mulR, subR, divR, absR,
      leRb, gtRb, isNanB, ratAbs_ite]
  have s2 : integStep fTabC6 (1 / 15) 1 [(1 / 2, 1), (0, 1 / 2)] (num 0) =
      .cont [(0, 1 / 2)] (num (21 / 20)) := by
    norm_num [integStep, simpsons_rule, fTabC6, addR, mulR, subR, divR, absR,
      leRb, gtRb, isNanB, ratAbs_ite]
  have s3 : integStep fTabC6 (1 / 15) 1 [(0, 1 / 2)] (num (21 / 20)) =
      .done nan := by
    norm_num [integStep, gtRb, isNanB]
  have t1 : integStep fTabC6 (1 / 15) 1 [(1, 0)] (num 0) =
      .cont [(1 / 2, 0), (1, 1 / 2)] (num 0) := by
    norm_num [integStep, simpsons_rule, fTabC6, addR, mulR, subR, divR, absR,
      leRb, gtRb, isNanB, ratAbs_ite]
  have t2 : integStep fTabC6 (1 / 15) 1 [(1 / 2, 0), (1, 1 / 2)] (num 0) =
      .cont [(1, 1 / 2)] (num (-7 / 10)) := by
    norm_num [integStep, simpsons_rule, fTabC6, addR, mulR, subR, divR, absR,
      leRb, gtRb, isNanB, ratAbs_ite]
  have t3 : integStep fTabC6 (1 / 15) 1 [(1, 1 / 2)] (num (-7 / 10)) =
      .cont [] (num (-7 / 4)) := by
    norm_num [integStep, simpsons_rule, fTabC6, addR, mulR, subR, divR, absR,
      leRb, gtRb, isNanB, ratAbs_ite]
  have t4 : integStep fTabC6 (1 / 15) 1 [] (num (-7 / 4)) =
      .done (num (-7 / 4)) := rfl
  refine ⟨?_, ?_, by simp [negR]⟩
  · show integLoop fTabC6 (1 / 15) 1 10 [(0, 1)] (num 0) = some nan
    rw [show (10 : ℕ) = 9 + 1 from rfl, integLoop_cont 9 s1,
      show (9 : ℕ) = 8 + 1 from rfl, integLoop_cont 8 s2,
      show (8 : ℕ) = 7 + 1 from rfl, integLoop_done 7 s3]
  · show integLoop fTabC6 (1 / 15) 1 10 [(1, 0)] (num 0) = some (num (-7 / 4))
    rw [show (10 : ℕ) = 9 + 1 from rfl, integLoop_cont 9 t1,
      show (9 : ℕ) = 8 + 1 from rfl, integLoop_cont 8 t2,
      show (8 : ℕ) = 7 + 1 from rfl, integLoop_cont 7 t3,
      show (7 : ℕ) = 6 + 1 from rfl, integLoop_done 6 t4]

/-! ## Claim C7: the reflected power `n ** f` (`__rpow__`, source lines 237-241)

`__rpow__` rewrites `n ** self` as `(e^self) ** ln(n)`: it builds
`exp_self = Function(math.exp)(self)` (a composition, rule
`t -> exp(self(t))`) and the scalar `ln_n = math.log(n)`, and returns
`exp_self.__pow__(ln_n)` whose rule is `t -> exp(self(t)) ** ln_n`.
Transcendentals leave ℚ, so this claim is embedded over ℝ with its own
NaN-carrying value type. -/

/-- A Python float value, real-valued variant for the `__rpow__` claim. -/
inductive RealVal where
  | nan : RealVal
  | num : ℝ → RealVal

/-- `math.exp` lifted to values: `exp(nan)` is NaN.  (Overflow for huge
arguments is not modelled; no claim depends on it.) -/
noncomputable def mexp : RealVal → RealVal
  | .nan => .nan
  | .num r => .num (Real.exp r)

open Classical in
/-- Python `**` with a float base value and a float scalar exponent:
`nan ** 0.0` is `1.0` and `nan ** y` is NaN otherwise; on a number base it
is real `rpow` (faithful for the positive bases produced by `exp`; Python
raises for a negative base with non-integral exponent, which no embedded
call site reaches). -/
noncomputable def rpowScalar : RealVal → ℝ → RealVal
  | .nan, y => if y = 0 then .num 1 else .nan
  | .num b, y => .num (b ^ y)

/-- The rule of the `Function` returned by `n ** f` (`__rpow__` with a
number `n`): `t -> exp(f(t)) ** log(n)`.  (`math.log` raises for `n <= 0`,
unreachable under the claim's `n > 0`; `Real.log` is its total model.) -/
noncomputable def rpowNF (n : ℝ) (f : ℝ → RealVal) : ℝ → RealVal := fun t =>
  rpowScalar (mexp (f t)) (Real.log n)

/-- Claim C7: for `n > 0` and a point `t` where `f` is defined (`f t` is
the number `v`), the rule of `n ** f` evaluates to
`exp(v * ln n)` — the composition `exp ∘ (f * log n)` — because
`(e^v) ** (ln n) = e^(v*ln n)` holds exactly for real powers with the
positive base `e^v`. -/
theorem rpow_exp_log (f : ℝ → RealVal) (n t v : ℝ) (hn : 0 < n)
    (hv : f t = .num v) :
    rpowNF n f t = .num (Real.exp (v * Real.log n)) := by
  have h1 : rpowNF n f t = .num (Real.exp v ^ Real.log n) := by
    simp [rpowNF, hv, mexp, rpowScalar]
  rw [h1, Real.rpow_def_of_pos (Real.exp_pos v), Real.log_exp]

/-- Witness for `rpow_exp_log`: `1 ** const(0)` evaluates to `1` at `0`. -/
theorem rpow_exp_log_witness :
    (0 : ℝ) < 1 ∧ rpowNF 1 (fun _ => RealVal.num 0) 0 = RealVal.num 1 := by
  refine ⟨one_pos, ?_⟩
  have h := rpow_exp_log (fun _ => RealVal.num 0) 1 0 0 one_pos rfl
  rw [h, zero_mul, Real.exp_zero]

/-! ## The `norm` function (source lines 379-419)

`norm` is the one place the source interacts with exceptions: the kind
string is validated (raising `ValueError` — or `IndexError` on the empty
string, since `norm_type[0]` is evaluated first), and the convergence probe
catches `OverflowError` from the rule.  Rules are therefore embedded here
as `ℚ → Except PyErr RVal`: evaluation yields a value or raises. -/

/-- The Python exceptions relevant to `norm`. -/
inductive PyErr where
  | overflow : PyErr
  | zeroDiv : PyErr
  | valueError : PyErr
  | indexError : PyErr
deriving DecidableEq

/-- An evaluation that may raise. -/
abbrev EvalM := Except PyErr RVal

/-- Python float `**` with an integer exponent on a value: `nan ** 0` is
`1.0` and `nan ** p` is NaN otherwise; `0.0 ** p` with `p < 0` raises
`ZeroDivisionError`; otherwise the exact integer power.  (Float overflow of
a huge power is not modelled; in the probe it would be caught exactly like
the modelled overflow raised by the rule itself.) -/
def zpowR : RVal → ℤ → EvalM
  | nan, p => .ok (if p = 0 then num 1 else nan)
  | num q, p =>
    if q = 0 ∧ p < 0 then .error .zeroDiv else .ok (num (q ^ p))

/-- The rule of `func_to_integrate = abs(func)**norm_type`:
`t -> |f(t)| ** p`, exceptions from the rule propagating. -/
def gFun (f : ℚ → EvalM) (p : ℤ) : ℚ → EvalM := fun t =>
  match f t with
  | .error e => .error e
  | .ok v => zpowR (absR v) p

/-- The four probe samples in source evaluation order (`g(1e5)`, `g(1e6)`,
`g(-1e5)`, `g(-1e6)`; the conditions re-sample `g(±1e5)`, which is the same
value since rules are pure) — the first exception wins — combined into
`cond1 and cond2 and cond3 and cond4` of source lines 401-407. -/
def probeCompute (g : ℚ → EvalM) : Except PyErr Bool :=
  match g 100000, g 1000000, g (-100000), g (-1000000) with
  | .error e, _, _, _ => .error e
  | .ok _, .error e, _, _ => .error e
  | .ok _, .ok _, .error e, _ => .error e
  | .ok _, .ok _, .ok _, .error e => .error e
  | .ok a, .ok b, .ok c, .ok d =>
    .ok (geRb (absR a) (absR b) && geRb (absR c) (absR d) &&
      ltRb (absR a) (num (1 / 100000)) && ltRb (absR c) (num (1 / 100000)))

/-- The `try: ... except OverflowError: integrable = False` around the
probe: an overflow makes the probe non-convergent, any other exception
propagates. -/
def tryProbe (g : ℚ → EvalM) : Except PyErr Bool :=
  match probeCompute g with
  | .error .overflow => .ok false
  | .error e => .error e
  | .ok b => .ok b

/-- Rule of the substitution `x/(1-x**2)` (identity `Function` divided by
`1 - x**2` through `__truediv__`, hence the zero guard at `t = ±1`). -/
def phiRule (t : ℚ) : RVal :=
  if (1 - t ^ 2 : ℚ) = 0 then nan else num (t / (1 - t ^ 2))

/-- Rule of the transformed integrand
`func_to_integrate(x/(1-x**2)) * (1+x**2)/((1-x**2)**2)`: the composition
feeds the value of `phiRule` into `g = |f|**p` — a data-model rule maps a
NaN argument to NaN, so at `t = ±1` the power applies to NaN — then the
product is divided through `__truediv__` with its zero guard on
`(1-x**2)**2`. -/
def cvFun (f : ℚ → EvalM) (p : ℤ) : ℚ → EvalM := fun t =>
  let A : EvalM :=
    match phiRule t with
    | nan => zpowR nan p
    | num u => gFun f p u
  match A with
  | .error e => .error e
  | .ok a =>
    .ok (if ((1 - t ^ 2 : ℚ) ^ 2 = 0) then nan
      else divR (mulR a (num (1 + t ^ 2))) (num ((1 - t ^ 2) ^ 2)))

/-- `_simpsons_rule` over a rule that may raise: the four evaluations in
source order, the first exception propagating. -/
def simpsonsE (f : ℚ → EvalM) (s e : ℚ) : EvalM :=
  match f s with
  | .error err => .error err
  | .ok a =>
    match f ((2 * s + e) / 3) with
    | .error err => .error err
    | .ok b =>
      match f ((s + 2 * e) / 3) with
      | .error err => .error err
      | .ok c =>
        match f e with
        | .error err => .error err
        | .ok d =>
          .ok (mulR (num ((e - s) / 8))
            (addR (addR (addR a (mulR (num 3) b)) (mulR (num 3) c)) d))

/-- One iteration of the `integrate` loop over a rule that may raise:
identical to `integStep`, with exceptions propagating out of the call. -/
def integStepE (f : ℚ → EvalM) (tol MAX : ℚ) :
    List (ℚ × ℚ) → RVal → Except PyErr StepRes
  | [], acc => .ok (.done acc)
  | (s0, e0) :: rest, acc =>
    if gtRb acc (num MAX) then .ok (.done nan)
    else
      match f s0 with
      | .error err => .error err
      | .ok vs =>
        let s := if isNanB vs then s0 + tol ^ 3 else s0
        match f e0 with
        | .error err => .error err
        | .ok ve =>
          let e := if isNanB ve then e0 - tol ^ 3 else e0
          match simpsonsE f s ((s + e) / 2) with
          | .error err => .error err
          | .ok left =>
            match simpsonsE f ((s + e) / 2) e with
            | .error err => .error err
            | .ok right =>
              match simpsonsE f s e with
              | .error err => .error err
              | .ok whole =>
                if leRb (absR (subR (addR left right) whole))
                    (num (15 * tol)) then
                  .ok (.cont rest (addR acc (addR (addR left right)
                    (divR (subR (addR left right) whole) (num 15)))))
                else
                  .ok (.cont (((s + e) / 2, e) :: (s, (s + e) / 2) :: rest) acc)

/-- The `integrate` loop over a rule that may raise. -/
def integLoopE (f : ℚ → EvalM) (tol MAX : ℚ) :
    ℕ → List (ℚ × ℚ) → RVal → Option (Except PyErr RVal)
  | 0, _, _ => none
  | n + 1, W, acc =>
    match integStepE f tol MAX W acc with
    | .error err => some (.error err)
    | .ok (.done v) => some (.ok v)
    | .ok (.cont W' acc') => integLoopE f tol MAX n W' acc'

/-- `integrate` over a rule that may raise, with explicit fuel. -/
def integrateE (f : ℚ → EvalM) (s e tol MAX : ℚ) (fuel : ℕ) :
    Option (Except PyErr RVal) :=
  integLoopE f tol MAX fuel [(s, e)] (num 0)

/-- Validity of the tail of a digit string: digits with single underscores
allowed between digits. -/
def digitTail : List Char → Bool
  | [] => true
  | '_' :: c :: rest => c.isDigit && digitTail rest
  | ['_'] => false
  | c :: rest => c.isDigit && digitTail rest

/-- A nonempty digit string (underscore-separated groups allowed). -/
def pyDigits : List Char → Bool
  | [] => false
  | c :: rest => c.isDigit && digitTail rest

/-- Value of a digit string (underscores removed beforehand). -/
def digitsVal (l : List Char) : ℕ :=
  l.foldl (fun n c => 10 * n + (c.toNat - 48)) 0

/-- Python `int(string)`: optional surrounding whitespace, an optional
sign, then a nonempty digit string with single underscores allowed between
digits; anything else raises `ValueError` (`none` here).  (Python also
accepts non-ASCII digits and whitespace; ASCII suffices for the claims.) -/
def pyInt (l : List Char) : Option ℤ :=
  match ((l.dropWhile Char.isWhitespace).reverse.dropWhile
      Char.isWhitespace).reverse with
  | '+' :: rest =>
    if pyDigits rest then some ((digitsVal (rest.filter fun c => c ≠ '_') : ℤ))
    else none
  | '-' :: rest =>
    if pyDigits rest then some (-(digitsVal (rest.filter fun c => c ≠ '_') : ℤ))
    else none
  | rest =>
    if pyDigits rest then some ((digitsVal (rest.filter fun c => c ≠ '_') : ℤ))
    else none

/-- The final `(...)**(1/norm_type)` of `norm`: `1/p` is a float, NaN is
preserved, a number is raised to the real power `1/p` (this step leaves ℚ,
hence the real-valued result; `p = 0`, where Python would raise a
`ZeroDivisionError` computing `1/0`, never reaches this step because
`|f|**0` is `1` everywhere and fails the smallness probe). -/
noncomputable def rootVal (v : RVal) (p : ℤ) : RealVal :=
  match v with
  | nan => RealVal.nan
  | num q => RealVal.num ((q : ℝ) ^ ((p : ℝ))⁻¹)

/-- `norm(func, norm_type, tol)` with explicit integration fuel: `none` if
the fuel runs out, otherwise the Python outcome — a value or a raised
exception.  `norm_type[0]` on the empty string raises `IndexError`; a
first character other than `"L"`, or a tail `int()` cannot parse, raises
`ValueError`; then the probe decides between NaN and the transformed
integral over `(-1, 1)` with the default bound `1e10`, raised to `1/p`. -/
noncomputable def norm (f : ℚ → EvalM) (norm_type : String) (tol : ℚ)
    (fuel : ℕ) : Option (Except PyErr RealVal) :=
  match norm_type.data with
  | [] => some (.error .indexError)
  | c :: rest =>
    if c = 'L' then
      match pyInt rest with
      | none => some (.error .valueError)
      | some p =>
        match tryProbe (gFun f p) with
        | .error e => some (.error e)
        | .ok false => some (.ok RealVal.nan)
        | .ok true =>
          match integrateE (cvFun f p) (-1) 1 tol (10 ^ 10) fuel with
          | none => none
          | some (.error e) => some (.error e)
          | some (.ok v) => some (.ok (rootVal v p))
    else some (.error .valueError)

/-! ## Claim C8: the convergence probe of `norm` -/

/-- The four probe conditions exactly as the claim states them, as one
boolean: all four samples evaluate to values and `|g(1e5)| >= |g(1e6)|`,
`|g(-1e5)| >= |g(-1e6)|`, `|g(1e5)| < 1e-5` and `|g(-1e5)| < 1e-5`. -/
def claimProbeOK (g : ℚ → EvalM) : Bool :=
  match g 100000, g 1000000, g (-100000), g (-1000000) with
  | .ok a, .ok b, .ok c, .ok d =>
    geRb (absR a) (absR b) && geRb (absR c) (absR d) &&
      ltRb (absR a) (num (1 / 100000)) && ltRb (absR c) (num (1 / 100000))
  | _, _, _, _ => false

/-- Claim C8 amended: for a valid kind `"L" ++ rest` parsing to `p >= 0`
and a rule that raises nothing but overflow (the data-model invariant:
values, NaN, or overflow), `norm` returns NaN without integrating unless
all four probe conditions hold; an overflow raised while evaluating any
probe is caught and treated as non-convergent.  (For `p < 0` a probe can
raise `ZeroDivisionError` from `0.0 ** p`, which is *not* caught — see
`norm_probe_cex` — hence the `0 ≤ p` restriction.) -/
theorem norm_probe_nan (f : ℚ → EvalM) (rest : List Char) (p : ℤ) (tol : ℚ)
    (fuel : ℕ) (hp : 0 ≤ p)
    (hf : ∀ t e, f t = .error e → e = PyErr.overflow)
    (hparse : pyInt rest = some p)
    (hprobe : claimProbeOK (gFun f p) = false) :
    norm f (String.mk ('L' :: rest)) tol fuel = some (.ok RealVal.nan) := by
  have hstep : ∀ t, gFun f p t = .error PyErr.overflow ∨
      ∃ v, gFun f p t = .ok v := by
    intro t
    cases hft : f t with
    | error e =>
      left
      simp only [gFun, hft, hf t e hft]
    | ok v =>
      right
      have hgf : gFun f p t = zpowR (absR v) p := by
        simp only [gFun, hft]
      rw [hgf]
      cases habs : absR v with
      | nan => exact ⟨_, rfl⟩
      | num q =>
        refine ⟨num (q ^ p), ?_⟩
        simp only [zpowR]
        rw [if_neg fun hcon : q = 0 ∧ p < 0 => absurd hcon.2 (not_lt.mpr hp)]
  have hfour : tryProbe (gFun f p) = .ok false := by
    rcases hstep 100000 with h1 | ⟨v1, h1⟩
    · simp only [tryProbe, probeCompute, h1]
    rcases hstep 1000000 with h2 | ⟨v2, h2⟩
    · simp only [tryProbe, probeCompute, h1, h2]
    rcases hstep (-100000) with h3 | ⟨v3, h3⟩
    · simp only [tryProbe, probeCompute, h1, h2, h3]
    rcases hstep (-1000000) with h4 | ⟨v4, h4⟩
    · simp only [tryProbe, probeCompute, h1, h2, h3, h4]
    unfold claimProbeOK at hprobe
    simp only [h1, h2, h3, h4] at hprobe
    simp only [tryProbe, probeCompute, h1, h2, h3, h4, hprobe]
  have hd : (String.mk ('L' :: rest)).data = 'L' :: rest := rfl
  simp [norm, hd, hparse, hfour]

/-- Witness for `norm_probe_nan`: the constant rule `1` fails the
smallness conditions under `L2`, so its norm is NaN. -/
theorem norm_probe_nan_witness :
    ((0 : ℤ) ≤ 2 ∧ pyInt ['2'] = some 2 ∧
      claimProbeOK (gFun (fun _ => .ok (num 1)) 2) = false) ∧
    norm (fun _ => .ok (num 1)) (String.mk ['L', '2']) 1 1 =
      some (.ok RealVal.nan) := by
  have hprobe : claimProbeOK (gFun (fun _ => .ok (num 1)) 2) = false := by
    norm_num [claimProbeOK, gFun, zpowR, absR, geRb, ltRb, ratAbs_ite]
  refine ⟨⟨by norm_num, rfl, hprobe⟩, ?_⟩
  exact norm_probe_nan (fun _ => .ok (num 1)) ['2'] 2 1 1 (by norm_num)
    (fun t e h => Except.noConfusion h) rfl hprobe

/-- Claim C8 is false as stated: with the valid kind `"L-1"` and the
everywhere-zero rule, evaluating the probe `g(1e5) = |0| ** (-1)` raises
`ZeroDivisionError`, which the probe's `except OverflowError` does *not*
catch — `norm` propagates the exception to the caller instead of returning
NaN as the claim requires when the probe conditions fail to hold. -/
theorem norm_probe_cex :
    norm (fun _ => .ok (num 0)) "L-1" 1 1 = some (.error .zeroDiv) ∧
    (Except.error PyErr.zeroDiv : Except PyErr RealVal) ≠ .ok RealVal.nan :=
  ⟨rfl, by simp⟩

/-! ## Claim C9: validation of the kind string -/

/-- The claim's kind format as a boolean: first character `"L"`, remainder
accepted by Python `int`. -/
def kindWellFormed (kind : String) : Bool :=
  match kind.data with
  | [] => false
  | c :: rest => c = 'L' && (pyInt rest).isSome

/-- Claim C9 amended: a malformed *nonempty* kind makes `norm` signal a
value error before any computation; the empty kind instead signals an
index error, because the source evaluates `norm_type[0]` before anything
else (see `norm_kind_cex`). -/
theorem norm_kind_error (f : ℚ → EvalM) (kind : String) (tol : ℚ) (fuel : ℕ) :
    (kind = "" → norm f kind tol fuel = some (.error .indexError)) ∧
    (kind ≠ "" → kindWellFormed kind = false →
      norm f kind tol fuel = some (.error .valueError)) := by
  constructor
  · intro h
    subst h
    rfl
  · intro hne hmal
    rcases hdata : kind.data with _ | ⟨c, rest⟩
    · exact absurd (String.ext hdata) hne
    · unfold kindWellFormed at hmal
      rw [hdata] at hmal
      by_cases hc : c = 'L'
      · subst hc
        simp at hmal
        rcases hpi : pyInt rest with _ | p
        · simp [norm, hdata, hpi]
        · rw [hpi] at hmal
          simp at hmal
      · simp only [norm, hdata]
        rw [if_neg hc]

/-- Witness for `norm_kind_error` at the empty kind and at the malformed
nonempty kind `"Lx"`. -/
theorem norm_kind_error_witness :
    (("" : String) = "" ∧ ("Lx" : String) ≠ "" ∧ kindWellFormed "Lx" = false) ∧
    norm (fun _ => .ok (num 0)) "" 1 1 = some (.error .indexError) ∧
    norm (fun _ => .ok (num 0)) "Lx" 1 1 = some (.error .valueError) := by
  have hne : ("Lx" : String) ≠ "" := by
    intro h
    simpa using congrArg String.data h
  refine ⟨⟨rfl, hne, rfl⟩, ?_, ?_⟩
  · exact (norm_kind_error (fun _ => .ok (num 0)) "" 1 1).1 rfl
  · exact (norm_kind_error (fun _ => .ok (num 0)) "Lx" 1 1).2 hne rfl

/-- Claim C9 is false on the empty string: `norm(f, "")` evaluates
`norm_type[0]`, raising `IndexError`, not the claimed `ValueError`. -/
theorem norm_kind_cex :
    norm (fun _ => .ok (num 0)) "" 1 1 = some (.error .indexError) ∧
    PyErr.indexError ≠ PyErr.valueError :=
  ⟨rfl, by simp⟩

end Funcy
